import Mathlib

/-!
Verification of the pathtorehab.com ingestion/aggregation pipeline
(`scripts/ingest-data.ts`, `scripts/fix-counts.ts`, `scripts/dedupe-facilities.ts`).

The TypeScript code is shallowly embedded: pure functions become Lean
functions over `String`, `ℕ` and `ℚ`; JavaScript `undefined`/missing
fields become `Option`; JS falsiness of a string value (absent or empty)
is the predicate `truthyStr · = false`; the database is modelled as the
list of rows it holds.
-/

/-- The ASCII whitespace characters matched by the JS regex class `\s`
(space, tab, line feed, vertical tab, form feed, carriage return). -/
def isJsSpace (c : Char) : Bool :=
  c = ' ' || c = '\t' || c = '\n' || c = '\x0b' || c = '\x0c' || c = '\r'

/-- Characters kept by `slugify`'s first replace: the complement of the
regex `[^a-z0-9\s-]` applied after lowercasing. -/
def slugKeep (c : Char) : Bool :=
  ('a' ≤ c && c ≤ 'z') || ('0' ≤ c && c ≤ '9') || isJsSpace c || c = '-'

/-- Collapse every run of consecutive `'-'` characters to a single `'-'`
(the source's dash-run regex replacement; runs of `\s` are first mapped
characterwise to `'-'`, which composes to the same result as the source's
whitespace-run replacement followed by the dash-run replacement). -/
def collapseDashes : List Char → List Char
  | [] => []
  | [c] => [c]
  | a :: b :: rest =>
    if a = '-' && b = '-' then collapseDashes (b :: rest)
    else a :: collapseDashes (b :: rest)

/-- JS `String.prototype.trim` on a character list. -/
def trimChars (l : List Char) : List Char :=
  ((l.dropWhile isJsSpace).reverse.dropWhile isJsSpace).reverse

/-- Embedding of `slugify` (ingest-data.ts lines 54-62): lowercase,
drop characters outside `[a-z0-9\s-]`, turn whitespace runs into single
hyphens, collapse hyphen runs, trim, and truncate to 100 characters. -/
def slugify (text : String) : String :=
  let lowered := text.data.map Char.toLower
  let kept := lowered.filter slugKeep
  let hyphened := kept.map (fun c => if isJsSpace c then '-' else c)
  String.mk ((trimChars (collapseDashes hyphened)).take 100)

/-- JS `s.slice(-6)`: the last six characters of `s` (all of `s` when it
is shorter). -/
def sliceLast6 (s : String) : String :=
  String.mk (s.data.drop (s.data.length - 6))

/-- Embedding of `createFacilitySlug` (ingest-data.ts lines 65-70).  In
`transformFacility` the external id argument is always the number
`raw._irow || index`, so it is taken here as a `ℕ`; `String(externalId)`
is its decimal rendering. -/
def createFacilitySlug (name city state : String) (externalId : ℕ) : String :=
  let base := slugify (name ++ " " ++ city ++ " " ++ state)
  let suffix := sliceLast6 (toString externalId)
  if base = "" then "facility-" ++ String.mk (state.data.map Char.toLower) ++ "-" ++ suffix
  else base ++ "-" ++ suffix

/-- One entry of the raw `services` array (ingest-data.ts lines 73-77):
`f1` category name, `f2` category code, `f3` comma-separated values. -/
structure ServiceItem where
  f1 : Option String
  f2 : Option String
  f3 : Option String
deriving DecidableEq

/-- A raw coordinate field, of TS type `string | number | undefined`. -/
inductive CoordVal where
  | absent
  | str (s : String)
  | num (q : ℚ)
deriving DecidableEq

/-- Numeric value of a list of decimal digit characters. -/
def digitsVal (l : List Char) : ℕ :=
  l.foldl (fun acc c => acc * 10 + (c.toNat - '0'.toNat)) 0

/-- JS `parseFloat` restricted to the plain decimal literals that occur
as coordinates: optional leading whitespace, optional sign, digits with
an optional fractional part.  `none` plays the role of `NaN`. -/
def jsParseFloat (s : String) : Option ℚ :=
  let l := s.data.dropWhile isJsSpace
  let signAndRest : ℚ × List Char :=
    match l with
    | '-' :: r => (-1, r)
    | '+' :: r => (1, r)
    | _ => (1, l)
  let intDigits := signAndRest.2.takeWhile Char.isDigit
  let rest := signAndRest.2.dropWhile Char.isDigit
  let fracDigits :=
    match rest with
    | '.' :: r => r.takeWhile Char.isDigit
    | _ => []
  if intDigits = [] ∧ fracDigits = [] then none
  else
    some (signAndRest.1 *
      ((digitsVal intDigits : ℚ) + (digitsVal fracDigits : ℚ) / 10 ^ fracDigits.length))

/-- JS truthiness of an optional string field: false for `undefined` and
for the empty string.  This is also the "filled" test of `calculateDQS`
(`f !== null && f !== undefined && f !== ''`), which coincides with
truthiness on string-valued fields. -/
def truthyStr : Option String → Bool
  | none => false
  | some s => s ≠ ""

/-- The "filled" test of `calculateDQS` applied to a coordinate field.
A number (even `0`) and a non-empty string are filled; `undefined` and
`''` are not. -/
def coordFilled : CoordVal → Bool
  | .absent => false
  | .str s => s ≠ ""
  | .num _ => true

/-- Embedding of `parseFloat(String(raw.latitude || ''))`: an absent
field, an empty string, and the number `0` (falsy, so replaced by `''`)
all parse to `NaN` (`none`); a non-zero number stringifies and parses
back to itself; a string goes through `jsParseFloat`. -/
def parseCoord : CoordVal → Option ℚ
  | .absent => none
  | .str s => jsParseFloat s
  | .num q => if q = 0 then none else some q

/-- Raw API row (ingest-data.ts lines 92-109).  `irow` models the
source's `_irow` field. -/
structure FacilityRaw where
  irow : Option ℕ := none
  name1 : Option String := none
  name2 : Option String := none
  street1 : Option String := none
  street2 : Option String := none
  city : Option String := none
  state : Option String := none
  zip : Option String := none
  phone : Option String := none
  intake1 : Option String := none
  hotline1 : Option String := none
  website : Option String := none
  latitude : CoordVal := .absent
  longitude : CoordVal := .absent
  typeFacility : Option String := none
  services : Option (List ServiceItem) := none
deriving DecidableEq

/-- JS `Math.round(x)`, i.e. `⌊x + 1/2⌋`, after scaling by 100:
the source's `Math.round(score * 100) / 100`. -/
def round2 (q : ℚ) : ℚ :=
  ((⌊q * 100 + 1/2⌋ : ℤ) : ℚ) / 100

/-- The ten "fields filled" flags of `calculateDQS` (lines 115-126), in
source order. -/
def dqsFields (facility : FacilityRaw) : List Bool :=
  [truthyStr facility.name1, truthyStr facility.street1, truthyStr facility.city,
   truthyStr facility.state, truthyStr facility.zip, truthyStr facility.phone,
   truthyStr facility.website, coordFilled facility.latitude,
   coordFilled facility.longitude, facility.services.isSome]

/-- Embedding of `calculateDQS` (ingest-data.ts lines 111-148): 40% for
the share of filled fields, 30%/15% for a services array of length > 3 /
1-3, 20% for coordinates parsing to non-zero numbers, 10% for any of
phone, website, intake phone, rounded to two decimals. -/
def calculateDQS (facility : FacilityRaw) : ℚ :=
  let filled := (dqsFields facility).count true
  let fieldScore : ℚ := (filled : ℚ) / 10 * (4/10)
  let servicesCount := (facility.services.getD []).length
  let serviceScore : ℚ :=
    if servicesCount > 3 then 3/10 else if servicesCount > 0 then 15/100 else 0
  let locScore : ℚ :=
    match parseCoord facility.latitude, parseCoord facility.longitude with
    | some lat, some lon => if lat ≠ 0 ∧ lon ≠ 0 then 2/10 else 0
    | _, _ => 0
  let contactScore : ℚ :=
    if truthyStr facility.phone || truthyStr facility.website ||
       truthyStr facility.intake1 then 1/10 else 0
  round2 (fieldScore + serviceScore + locScore + contactScore)

/-- JS `String.prototype.trim` on a `String`. -/
def trimStr (s : String) : String :=
  String.mk (trimChars s.data)

/-- Embedding of `extractServiceValues` (ingest-data.ts lines 79-89):
find the entry with category code `code`, split its `f3` value on
commas, trim, and drop empties.  A falsy `f3` (absent or empty string)
yields the empty list. -/
def extractServiceValues (services : Option (List ServiceItem)) (code : String) :
    List String :=
  match services with
  | none => []
  | some svcs =>
    match svcs.find? (fun s => s.f2 = some code) with
    | none => []
    | some s =>
      match s.f3 with
      | none => []
      | some v =>
        if v = "" then []
        else ((v.splitOn ",").map trimStr).filter (· ≠ "")


/-- The `US_STATES` lookup table (ingest-data.ts lines 23-36). -/
def US_STATES : List (String × String) :=
  [("AL", "Alabama"), ("AK", "Alaska"), ("AZ", "Arizona"), ("AR", "Arkansas"),
   ("CA", "California"), ("CO", "Colorado"), ("CT", "Connecticut"), ("DE", "Delaware"),
   ("FL", "Florida"), ("GA", "Georgia"), ("HI", "Hawaii"), ("ID", "Idaho"),
   ("IL", "Illinois"), ("IN", "Indiana"), ("IA", "Iowa"), ("KS", "Kansas"),
   ("KY", "Kentucky"), ("LA", "Louisiana"), ("ME", "Maine"), ("MD", "Maryland"),
   ("MA", "Massachusetts"), ("MI", "Michigan"), ("MN", "Minnesota"), ("MS", "Mississippi"),
   ("MO", "Missouri"), ("MT", "Montana"), ("NE", "Nebraska"), ("NV", "Nevada"),
   ("NH", "New Hampshire"), ("NJ", "New Jersey"), ("NM", "New Mexico"), ("NY", "New York"),
   ("NC", "North Carolina"), ("ND", "North Dakota"), ("OH", "Ohio"), ("OK", "Oklahoma"),
   ("OR", "Oregon"), ("PA", "Pennsylvania"), ("RI", "Rhode Island"), ("SC", "South Carolina"),
   ("SD", "South Dakota"), ("TN", "Tennessee"), ("TX", "Texas"), ("UT", "Utah"),
   ("VT", "Vermont"), ("VA", "Virginia"), ("WA", "Washington"), ("WV", "West Virginia"),
   ("WI", "Wisconsin"), ("WY", "Wyoming"), ("DC", "District of Columbia"),
   ("PR", "Puerto Rico"), ("VI", "Virgin Islands"), ("GU", "Guam"),
   ("AS", "American Samoa"), ("MP", "Northern Mariana Islands")]

/-- JS `US_STATES[code]` as an optional lookup. -/
def lookupState (code : String) : Option String :=
  (US_STATES.find? (fun p => p.1 = code)).map Prod.snd

/-- Normalized database record (ingest-data.ts lines 151-178). -/
structure FacilityRecord where
  external_id : String
  name : String
  name_alt : Option String
  slug : String
  street1 : Option String
  street2 : Option String
  city : String
  city_slug : String
  state : String
  state_name : String
  zip : Option String
  phone : Option String
  intake_phone : Option String
  hotline : Option String
  website : Option String
  latitude : Option ℚ
  longitude : Option ℚ
  facility_type : Option String
  services : Option (List ServiceItem)
  type_of_care : List String
  service_settings : List String
  payment_options : List String
  age_groups : List String
  special_programs : List String
  dqs : ℚ
  is_indexable : Bool
deriving DecidableEq

/-- JS `raw._irow || index`: the `_irow` field unless it is absent or
the falsy number `0`, in which case the ordinal index. -/
def effectiveExternalId (irow : Option ℕ) (index : ℕ) : ℕ :=
  match irow with
  | some n => if n = 0 then index else n
  | none => index

/-- Embedding of `transformFacility` (ingest-data.ts lines 180-226):
reject records whose name, city or state is falsy, otherwise build the
normalized record. -/
def transformFacility (raw : FacilityRaw) (index : ℕ) : Option FacilityRecord :=
  if truthyStr raw.name1 && truthyStr raw.city && truthyStr raw.state then
    let name := raw.name1.getD ""
    let city := raw.city.getD ""
    let state := raw.state.getD ""
    let stateName := (lookupState state).getD state
    let citySlug := slugify city
    let externalId := effectiveExternalId raw.irow index
    let facilitySlug := createFacilitySlug name city state externalId
    let dqs := calculateDQS raw
    some
      { external_id := toString externalId
        name := name
        name_alt := if truthyStr raw.name2 then raw.name2 else none
        slug := facilitySlug
        street1 := if truthyStr raw.street1 then raw.street1 else none
        street2 := if truthyStr raw.street2 then raw.street2 else none
        city := city
        city_slug := citySlug
        state := state
        state_name := stateName
        zip := if truthyStr raw.zip then raw.zip else none
        phone := if truthyStr raw.phone then raw.phone else none
        intake_phone := if truthyStr raw.intake1 then raw.intake1 else none
        hotline := if truthyStr raw.hotline1 then raw.hotline1 else none
        website := if truthyStr raw.website then raw.website else none
        latitude := parseCoord raw.latitude
        longitude := parseCoord raw.longitude
        facility_type := if truthyStr raw.typeFacility then raw.typeFacility else none
        services := raw.services
        type_of_care := extractServiceValues raw.services "TC"
        service_settings := extractServiceValues raw.services "SET"
        payment_options := extractServiceValues raw.services "PAY"
        age_groups := extractServiceValues raw.services "AGE"
        special_programs := extractServiceValues raw.services "SG"
        dqs := dqs
        is_indexable := dqs ≥ 7/10 }
  else none

/-- The in-batch natural deduplication key (ingest-data.ts line 549):
`name|street1|city|state|phone` with empty string for missing fields. -/
def facKey (f : FacilityRecord) : String :=
  f.name ++ "|" ++ f.street1.getD "" ++ "|" ++ f.city ++ "|" ++ f.state ++ "|" ++
    f.phone.getD ""

/-- Insert `x` into a list sorted by `f` descending, before the first
element whose score does not exceed `f x`.  Together with `sortDescBy`
this realises the stable descending sort performed by
`allFacilities.sort((a, b) => b.dqs - a.dqs)` (line 546); JS array sort
is stable, and a stable insertion sort computes the same permutation. -/
def insertDescBy {α : Type} (f : α → ℚ) (x : α) : List α → List α
  | [] => [x]
  | y :: l => if f x ≥ f y then x :: y :: l else y :: insertDescBy f x l

/-- Stable sort by `f` descending (ties keep their original relative
order). -/
def sortDescBy {α : Type} (f : α → ℚ) : List α → List α
  | [] => []
  | x :: l => insertDescBy f x (sortDescBy f l)

/-- First-seen keying pass (ingest-data.ts lines 548-553): walk the list
and keep each element whose key has not been seen before, in order.
`seen` is the set of keys of the `Map` built so far; the survivors come
out in `Map` insertion order, as `Array.from(seen.values())` does. -/
def dedupFirst {α : Type} (key : α → String) : List α → List String → List α
  | [], _ => []
  | x :: l, seen =>
    if key x ∈ seen then dedupFirst key l seen
    else x :: dedupFirst key l (key x :: seen)

/-- The whole in-batch deduplication step of `main` (ingest-data.ts
lines 541-555): sort by DQS descending, then keep the first record seen
for each natural key. -/
def dedupeStep (l : List FacilityRecord) : List FacilityRecord :=
  dedupFirst facKey (sortDescBy FacilityRecord.dqs l) []

/-- Fold step of `pickBestBy`: keep the incumbent unless the new element
scores strictly higher. -/
def pb1 {α : Type} (f : α → ℚ) (b : α) (l : List α) : α :=
  l.foldl (fun b y => if f y > f b then y else b) b

/-- Specification-side selector: the earliest element of maximal score,
or `none` for the empty list.  This is the survivor the deduplication
claim describes ("highest quality score wins; ties broken by first-seen
order"). -/
def pickBestBy {α : Type} (f : α → ℚ) : List α → Option α
  | [] => none
  | x :: l => some (pb1 f x l)

/-- The backend chunk limit (ingest-data.ts line 17). -/
def BATCH_SIZE : ℕ := 1000

/-- The successive slices `facilities.slice(i, i + BATCH_SIZE)` taken by
the loop of `insertFacilities` (ingest-data.ts lines 282-283): the list
of batches handed to the bulk upsert call, in order. -/
def chunkBatches {α : Type} : List α → List (List α)
  | [] => []
  | x :: l =>
    (x :: l).take BATCH_SIZE :: chunkBatches ((x :: l).drop BATCH_SIZE)
termination_by l => l.length
decreasing_by
  simp only [List.length_drop, List.length_cons, BATCH_SIZE]
  omega

/-- Embedding of the write calls issued by `insertFacilities`
(ingest-data.ts lines 276-321): one bulk upsert per chunk. -/
def insertFacilities (facilities : List FacilityRecord) : List (List FacilityRecord) :=
  chunkBatches facilities

/-- The per-record fallback performed inside a failing chunk
(ingest-data.ts lines 308-316): a single-record upsert call per record
of the batch. -/
def fallbackWrites (batch : List FacilityRecord) : List (List FacilityRecord) :=
  batch.map (fun record => [record])

/-- One row of the `states` table as upserted by `populateStates`
(ingest-data.ts lines 356-361). -/
structure StateRec where
  code : String
  name : String
  slug : String
  facility_count : ℕ
deriving DecidableEq

/-- One step of the counting loop of `populateStates` (lines 348-353):
bump the count stored under `code`, keeping the name recorded at first
insertion, or append a fresh entry with count 1.  `Map.set` on an
existing key keeps its position, and new keys are appended, so an
association list in insertion order models the JS `Map` exactly. -/
def bumpState (m : List (String × String × ℕ)) (code name : String) :
    List (String × String × ℕ) :=
  match m with
  | [] => [(code, name, 1)]
  | (c, n, k) :: rest =>
    if c = code then (c, n, k + 1) :: rest
    else (c, n, k) :: bumpState rest code name

/-- A single un-ranged select returns at most this many rows: the
backend client library caps every select call at 1000 rows, which is
why `populateCities` and the maintenance pass page with `range`. -/
def SELECT_CAP : ℕ := 1000

/-- Embedding of the region-rollup pass `populateStates` (ingest-data.ts
lines 328-376) over the persisted facility rows.  The source issues one
un-ranged select of `state, state_name`, filtered only by `state` being
non-null — which holds of every transformed record, whose `state` column
is a non-nullable string — with no filter on `is_indexable` and no
`range` paging, so the backend returns only the first `SELECT_CAP`
matching rows; those rows are then counted per state code. -/
def populateStates (rows : List FacilityRecord) : List StateRec :=
  let fetched := rows.take SELECT_CAP
  let stateMap := fetched.foldl (fun m r => bumpState m r.state r.state_name) []
  stateMap.map (fun e => ⟨e.1, e.2.1, slugify e.2.1, e.2.2⟩)

/-- Sum of the `facility_count` column over rollup rows. -/
def sumCounts (l : List StateRec) : ℕ :=
  (l.map (fun s => s.facility_count)).sum

/-- Number of indexable rows in a persisted facility set. -/
def countIndexable (rows : List FacilityRecord) : ℕ :=
  (rows.filter (fun r => r.is_indexable)).length

/-- Result record of the change detector (fix-counts.ts lines 202-207). -/
structure CheckResult where
  hasUpdate : Bool
  currentCount : ℕ
  latestCount : Option ℕ
  error : Option String
deriving DecidableEq

/-- The significance test of `checkForUpdate` (fix-counts.ts lines
334-335): relative difference above 1%, or a prior count of zero.  When
the prior count is zero the JS division yields `Infinity` or `NaN`; the
disjunct `current = 0` makes the outcome `true` either way, as it does
in the source. -/
def hasSignificantChange (current latest : ℕ) : Bool :=
  if |(latest : ℚ) - (current : ℚ)| / (current : ℚ) > 1/100 ∨ current = 0 then true
  else false

/-- Embedding of `checkForUpdate` (fix-counts.ts lines 304-343) as a
function of the two reads it performs: the stored metadata record count
(`none` when `getCurrentMetadata` fails) and the latest source record
count (`none` when the API fetch fails). -/
def checkForUpdate (metadata : Option ℕ) (latest : Option ℕ) : CheckResult :=
  match metadata with
  | none =>
    { hasUpdate := false, currentCount := 0, latestCount := none
      error := some "Failed to get current metadata" }
  | some current =>
    match latest with
    | none =>
      { hasUpdate := false, currentCount := current, latestCount := none
        error := some "Failed to fetch SAMHSA API" }
    | some lat =>
      { hasUpdate := hasSignificantChange current lat, currentCount := current
        latestCount := some lat, error := none }

/-- The observable side effects of one `checkForUpdate` run, in program
order. -/
inductive DetectorEffect where
  | readMetadata
  | fetchAPI
  | updateLastChecked
deriving DecidableEq

/-- The sequence of side effects performed by `checkForUpdate`
(fix-counts.ts lines 304-343): it returns right after the metadata read
when that read fails (lines 308-315), and otherwise fetches the source
count and then calls `updateLastChecked` (line 321) before inspecting
the fetch result. -/
def checkForUpdateEffects (metadata : Option ℕ) (latest : Option ℕ) :
    List DetectorEffect :=
  match metadata with
  | none => [.readMetadata]
  | some _ =>
    match latest with
    | none => [.readMetadata, .fetchAPI, .updateLastChecked]
    | some _ => [.readMetadata, .fetchAPI, .updateLastChecked]

/-- A persisted facility row as read by the maintenance pass
(dedupe-facilities.ts lines 11-19), together with the `is_indexable`
column its query filters on. -/
structure StoredFacility where
  id : ℕ
  name : String
  street1 : Option String
  city : String
  state : String
  phone : Option String
  dqs : ℚ
  is_indexable : Bool
deriving DecidableEq

/-- The natural key of the maintenance pass (dedupe-facilities.ts line
61), identical in shape to the in-batch key. -/
def storedKey (f : StoredFacility) : String :=
  f.name ++ "|" ++ f.street1.getD "" ++ "|" ++ f.city ++ "|" ++ f.state ++ "|" ++
    f.phone.getD ""

/-- The rows fetched by the maintenance pass (dedupe-facilities.ts lines
32-53): only rows with `is_indexable = true`, ordered by `dqs`
descending. -/
def fetchIndexable (store : List StoredFacility) : List StoredFacility :=
  sortDescBy StoredFacility.dqs (store.filter (fun f => f.is_indexable))

/-- Append `x` to the group stored under `key`, or start a new group
(the `Map<string, Facility[]>` push of dedupe-facilities.ts lines
58-66). -/
def addToGroup {α : Type} (key : String) (x : α) :
    List (String × List α) → List (String × List α)
  | [] => [(key, [x])]
  | (k, g) :: rest =>
    if k = key then (k, g ++ [x]) :: rest
    else (k, g) :: addToGroup key x rest

/-- Group a list by key, preserving insertion order inside each group. -/
def groupByKey {α : Type} (key : α → String) (l : List α) :
    List (String × List α) :=
  l.foldl (fun gs x => addToGroup (key x) x gs) []

/-- The ids marked for deletion by the maintenance pass
(dedupe-facilities.ts lines 69-81): in every key group, every row after
the first. -/
def dedupeDeletions (store : List StoredFacility) : List ℕ :=
  ((groupByKey storedKey (fetchIndexable store)).map
    (fun g => (g.2.drop 1).map (fun f => f.id))).flatten

/-- The store contents after the maintenance pass deletes the marked
ids (dedupe-facilities.ts lines 95-109). -/
def dedupeFacilitiesRemaining (store : List StoredFacility) : List StoredFacility :=
  store.filter (fun f => f.id ∉ dedupeDeletions store)

/-- A normalized record with the fixed natural-key fields used by the
concrete deduplication scenarios; external id and DQS vary. -/
def mkSample (eid : String) (d : ℚ) : FacilityRecord :=
  { external_id := eid
    name := "Alpha House"
    name_alt := none
    slug := "alpha-house-austin-tx-" ++ eid
    street1 := some "1 Main St"
    street2 := none
    city := "Austin"
    city_slug := "austin"
    state := "TX"
    state_name := "Texas"
    zip := none
    phone := some "512-555-0100"
    intake_phone := none
    hotline := none
    website := none
    latitude := none
    longitude := none
    facility_type := none
    services := none
    type_of_care := []
    service_settings := []
    payment_options := []
    age_groups := []
    special_programs := []
    dqs := d
    is_indexable := true }

/-- Duplicate pair member with quality score 0.9. -/
def dupRecHigh : FacilityRecord := mkSample "1" (9/10)

/-- Duplicate pair member with quality score 0.6. -/
def dupRecLow : FacilityRecord := mkSample "2" (6/10)

/-- A second record with quality score 0.9 and the same natural key,
for the tie-breaking scenario. -/
def dupRecTie : FacilityRecord := mkSample "3" (9/10)

/-- A persisted, non-indexable facility record. -/
def sampleFacility : FacilityRecord :=
  { mkSample "4" (3/10) with is_indexable := false }

/-- A raw record with every field filled, more than three services,
non-zero numeric coordinates and a phone. -/
def fullRaw : FacilityRaw :=
  { irow := some 12345
    name1 := some "Alpha House"
    name2 := some "Alpha"
    street1 := some "1 Main St"
    street2 := none
    city := some "Austin"
    state := some "TX"
    zip := some "78701"
    phone := some "512-555-0100"
    intake1 := some "512-555-0101"
    hotline1 := none
    website := some "example.org"
    latitude := CoordVal.num 30
    longitude := CoordVal.num (-97)
    typeFacility := some "SA"
    services :=
      some [⟨some "Type of Care", some "TC", some "OP"⟩,
            ⟨some "Service Setting", some "SET", some "OP"⟩,
            ⟨some "Payment", some "PAY", some "MC"⟩,
            ⟨some "Age Groups", some "AGE", some "AD"⟩] }

/-- A stored, non-indexable facility row. -/
def storedDupA : StoredFacility :=
  { id := 1, name := "Beta House", street1 := some "2 Oak St", city := "Dallas"
    state := "TX", phone := some "214-555-0100", dqs := 0, is_indexable := false }

/-- A second stored, non-indexable facility row sharing `storedDupA`'s
natural key but with a different id. -/
def storedDupB : StoredFacility :=
  { id := 2, name := "Beta House", street1 := some "2 Oak St", city := "Dallas"
    state := "TX", phone := some "214-555-0100", dqs := 0, is_indexable := false }

theorem string_append_left_cancel {a b c : String} (h : a ++ b = a ++ c) : b = c := by
  have h2 : (a ++ b).data = (a ++ c).data := by rw [h]
  simp only [String.data_append] at h2
  exact String.ext (List.append_cancel_left h2)

/-- C2 counterexample: two records with identical name, city and state
and the distinct external ids 1000001 and 2000001 produce the same slug,
because `createFacilitySlug` keeps only the last six characters of the
id. -/
theorem createFacilitySlug_collision :
    createFacilitySlug "A" "B" "CA" 1000001 = createFacilitySlug "A" "B" "CA" 2000001 ∧
      (1000001 : ℕ) ≠ 2000001 := by
  exact ⟨by decide, by decide⟩

/-- C2 (amended): transforming two records with identical name, city and
state yields distinct slugs whenever the six-character suffixes taken
from the two external ids differ (rather than whenever the ids differ). -/
theorem createFacilitySlug_distinct_of_suffix_ne :
    ∀ (name city state : String) (id1 id2 : ℕ),
      sliceLast6 (toString id1) ≠ sliceLast6 (toString id2) →
      createFacilitySlug name city state id1 ≠ createFacilitySlug name city state id2 := by
  intro name city state id1 id2 hsuf heq
  unfold createFacilitySlug at heq
  by_cases hb : slugify (name ++ " " ++ city ++ " " ++ state) = ""
  · rw [if_pos hb, if_pos hb] at heq
    exact hsuf (string_append_left_cancel heq)
  · rw [if_neg hb, if_neg hb] at heq
    exact hsuf (string_append_left_cancel heq)

/-- C2 witness: concrete instantiation of the amended slug-distinctness
statement. -/
theorem createFacilitySlug_distinct_witness :
    sliceLast6 (toString (111111 : ℕ)) ≠ sliceLast6 (toString (222222 : ℕ)) ∧
      createFacilitySlug "A" "B" "CA" 111111 ≠ createFacilitySlug "A" "B" "CA" 222222 :=
  ⟨by decide, createFacilitySlug_distinct_of_suffix_ne "A" "B" "CA" 111111 222222 (by decide)⟩

/-- C4: `transformFacility` returns `null` exactly when the raw record's
name, city or state is missing (absent, or the empty string, which the
source's JS falsiness test treats the same way); every record with all
three present yields a normalized record. -/
theorem transformFacility_none_iff :
    ∀ (raw : FacilityRaw) (index : ℕ),
      transformFacility raw index = none ↔
        (truthyStr raw.name1 = false ∨ truthyStr raw.city = false ∨
          truthyStr raw.state = false) := by
  intro raw index
  by_cases h1 : truthyStr raw.name1 = true
  · by_cases h2 : truthyStr raw.city = true
    · by_cases h3 : truthyStr raw.state = true
      · simp [transformFacility, h1, h2, h3]
      · simp only [Bool.not_eq_true] at h3
        simp [transformFacility, h1, h2, h3]
    · simp only [Bool.not_eq_true] at h2
      simp [transformFacility, h2]
  · simp only [Bool.not_eq_true] at h1
    simp [transformFacility, h1]

/-- C4 witness: a record with no city is rejected. -/
theorem transformFacility_none_witness :
    transformFacility { name1 := some "Alpha House", state := some "TX" } 0 = none :=
  (transformFacility_none_iff { name1 := some "Alpha House", state := some "TX" } 0).mpr
    (Or.inr (Or.inl rfl))

/-- C8 counterexample: on a run where reading the stored metadata fails,
`checkForUpdate` returns before `updateLastChecked`, so the last-checked
timestamp is not written. -/
theorem checkForUpdateEffects_missing_on_metadata_failure :
    DetectorEffect.updateLastChecked ∉ checkForUpdateEffects none (some 5) := by
  decide

/-- C8 (amended): `checkForUpdate` updates the last-checked timestamp on
every run on which the stored metadata was read successfully — including
runs where the source API fetch fails and runs where no update is
flagged — but not on runs where the metadata read itself fails. -/
theorem checkForUpdateEffects_updates_when_metadata_read :
    ∀ (metadata latest : Option ℕ), metadata.isSome = true →
      DetectorEffect.updateLastChecked ∈ checkForUpdateEffects metadata latest := by
  intro metadata latest hm
  cases metadata with
  | none => simp at hm
  | some current => cases latest <;> simp [checkForUpdateEffects]

/-- C8 witness: with metadata present and a failed API fetch, the
timestamp is still updated. -/
theorem checkForUpdateEffects_updates_witness :
    (some 7 : Option ℕ).isSome = true ∧
      DetectorEffect.updateLastChecked ∈ checkForUpdateEffects (some 7) none :=
  ⟨rfl, checkForUpdateEffects_updates_when_metadata_read (some 7) none rfl⟩

theorem chunkBatches_mem_length {α : Type} :
    ∀ (l : List α), ∀ b ∈ chunkBatches l, b.length ≤ BATCH_SIZE
  | [] => by simp [chunkBatches]
  | x :: xs => by
    intro b hb
    rw [chunkBatches] at hb
    rcases List.mem_cons.mp hb with rfl | h
    · exact List.length_take_le _ _
    · exact chunkBatches_mem_length _ b h
termination_by l => l.length
decreasing_by
  simp only [List.length_drop, List.length_cons, BATCH_SIZE]
  omega

/-- C6: every batch handed to the bulk upsert call by `insertFacilities`
has at most `BATCH_SIZE = 1000` records, and every write issued by the
per-record fallback carries exactly one record. -/
theorem insertFacilities_batch_bound :
    (∀ (facilities : List FacilityRecord), ∀ batch ∈ insertFacilities facilities,
        batch.length ≤ 1000) ∧
    (∀ (batch : List FacilityRecord), ∀ call ∈ fallbackWrites batch,
        call.length = 1) := by
  constructor
  · intro facilities batch hb
    exact chunkBatches_mem_length facilities batch hb
  · intro batch call hc
    simp only [fallbackWrites, List.mem_map] at hc
    obtain ⟨r, _, rfl⟩ := hc
    rfl

/-- C6 witness: concrete instantiation of both batch-size bounds. -/
theorem insertFacilities_batch_bound_witness :
    (([sampleFacility] : List FacilityRecord).take BATCH_SIZE).length ≤ 1000 ∧
      ([sampleFacility] : List FacilityRecord).length = 1 := by
  constructor
  · refine insertFacilities_batch_bound.1 [sampleFacility] _ ?_
    rw [insertFacilities, chunkBatches]
    exact List.mem_cons_self _ _
  · refine insertFacilities_batch_bound.2 [sampleFacility] _ ?_
    simp [fallbackWrites]

/-- C7: on a successful run, `checkForUpdate` flags an update exactly
when the relative difference of the latest count against the stored
count exceeds 1% or the stored count is zero; in particular 1000 vs 1005
gives no update, 1000 vs 1050 gives an update, and a stored count of
zero always gives an update. -/
theorem checkForUpdate_threshold :
    (∀ current latest : ℕ, 0 < current →
        ((checkForUpdate (some current) (some latest)).hasUpdate = true ↔
          |(latest : ℚ) - (current : ℚ)| / (current : ℚ) > 1/100)) ∧
    (∀ latest : ℕ, (checkForUpdate (some 0) (some latest)).hasUpdate = true) ∧
    (checkForUpdate (some 1000) (some 1005)).hasUpdate = false ∧
    (checkForUpdate (some 1000) (some 1050)).hasUpdate = true := by
  refine ⟨?_, ?_, ?_, ?_⟩
  · intro current latest hc
    by_cases hP : |(latest : ℚ) - (current : ℚ)| / (current : ℚ) > 1/100
    · simp only [checkForUpdate, hasSignificantChange]
      simp [hP]
      exact fun h0 => absurd h0 hc.ne'
    · simp [checkForUpdate, hasSignificantChange, hP, hc.ne']
  · intro latest
    simp [checkForUpdate, hasSignificantChange]
  · simp [checkForUpdate, hasSignificantChange]
    norm_num
  · simp [checkForUpdate, hasSignificantChange]
    norm_num

/-- C7 witness: concrete instantiation of the threshold equivalence at
stored count 200 and latest count 300. -/
theorem checkForUpdate_threshold_witness :
    0 < 200 ∧ (checkForUpdate (some 200) (some 300)).hasUpdate = true := by
  refine ⟨by norm_num, ?_⟩
  exact (checkForUpdate_threshold.1 200 300 (by norm_num)).mpr (by norm_num)

/-- Sum of the per-state counters of the association list built by the
counting loop of `populateStates`. -/
theorem bumpState_sum (m : List (String × String × ℕ)) (code name : String) :
    ((bumpState m code name).map (fun e => e.2.2)).sum =
      (m.map (fun e => e.2.2)).sum + 1 := by
  induction m with
  | nil => simp [bumpState]
  | cons e rest ih =>
    obtain ⟨c, n, k⟩ := e
    by_cases h : c = code
    · simp [bumpState, h]
      omega
    · simp [bumpState, h, ih]
      omega

theorem foldl_bumpState_sum (rows : List FacilityRecord) :
    ∀ m : List (String × String × ℕ),
      ((rows.foldl (fun m r => bumpState m r.state r.state_name) m).map
          (fun e => e.2.2)).sum =
        (m.map (fun e => e.2.2)).sum + rows.length := by
  induction rows with
  | nil => intro m; simp
  | cons r rows ih =>
    intro m
    simp only [List.foldl_cons, List.length_cons]
    rw [ih, bumpState_sum]
    omega

/-- C1 counterexample: a persisted set holding one non-indexable record
already breaks the claimed identity — `populateStates` stores a state
count of 1 while the set holds no indexable record at all, because its
query does not filter on `is_indexable`. -/
theorem populateStates_counts_nonindexable :
    sumCounts (populateStates [sampleFacility]) ≠ countIndexable [sampleFacility] := by
  rw [populateStates, List.take_of_length_le (by norm_num [SELECT_CAP])]
  simp [bumpState, sumCounts, countIndexable, sampleFacility, mkSample]

/-- C1 (amended): after the region-rollup pass, the sum of the stored
per-state counts equals the number of rows its single capped select
returns — the lesser of 1000 and the total number of persisted records
(every transformed record carries a state) — not the number of
indexable ones: the pass neither filters on indexability nor pages past
the backend's 1000-row select cap; indexable-only counts are only
established by the separate fix-counts pass. -/
theorem populateStates_sum_counts :
    ∀ rows : List FacilityRecord,
      sumCounts (populateStates rows) = min SELECT_CAP rows.length := by
  intro rows
  simp only [populateStates, sumCounts, List.map_map]
  have h := foldl_bumpState_sum (rows.take SELECT_CAP) []
  simpa [List.length_take] using h

theorem round2_bounds {q : ℚ} (h0 : 0 ≤ q) (h1 : q ≤ 1) :
    0 ≤ round2 q ∧ round2 q ≤ 1 := by
  unfold round2
  constructor
  · apply div_nonneg _ (by norm_num : (0:ℚ) ≤ 100)
    have h : (0:ℤ) ≤ ⌊q * 100 + 1/2⌋ := Int.le_floor.mpr (by push_cast; linarith)
    exact_mod_cast h
  · rw [div_le_one (by norm_num : (0:ℚ) < 100)]
    have h : ⌊q * 100 + 1/2⌋ ≤ (100:ℤ) := by
      have h2 : ⌊q * 100 + 1/2⌋ ≤ ⌊(201:ℚ)/2⌋ := Int.floor_le_floor (by linarith)
      have h3 : ⌊(201:ℚ)/2⌋ = 100 := by norm_num
      omega
    exact_mod_cast h

/-- C3: the quality score is always in the interval `[0, 1]` (and, being
a function of the raw record, deterministic); and any record with all
ten base fields filled, more than three services, coordinates parsing to
non-zero numbers, and a phone scores exactly 1. -/
theorem calculateDQS_bounds_and_full :
    (∀ raw : FacilityRaw, 0 ≤ calculateDQS raw ∧ calculateDQS raw ≤ 1) ∧
    (∀ (raw : FacilityRaw) (la lo : ℚ),
        truthyStr raw.name1 = true → truthyStr raw.street1 = true →
        truthyStr raw.city = true → truthyStr raw.state = true →
        truthyStr raw.zip = true → truthyStr raw.phone = true →
        truthyStr raw.website = true → coordFilled raw.latitude = true →
        coordFilled raw.longitude = true → raw.services.isSome = true →
        3 < (raw.services.getD []).length →
        parseCoord raw.latitude = some la → la ≠ 0 →
        parseCoord raw.longitude = some lo → lo ≠ 0 →
        calculateDQS raw = 1) := by
  constructor
  · intro raw
    have hlen : (dqsFields raw).length = 10 := by simp [dqsFields]
    have hc : (dqsFields raw).count true ≤ 10 := hlen ▸ List.count_le_length _ _
    have hcount : ((dqsFields raw).count true : ℚ) ≤ 10 := by exact_mod_cast hc
    have hcount0 : (0:ℚ) ≤ ((dqsFields raw).count true : ℚ) := by positivity
    simp only [calculateDQS]
    apply round2_bounds
    · cases hl : parseCoord raw.latitude <;> cases ho : parseCoord raw.longitude <;>
        simp only [] <;> split_ifs <;> linarith
    · cases hl : parseCoord raw.latitude <;> cases ho : parseCoord raw.longitude <;>
        simp only [] <;> split_ifs <;> linarith
  · intro raw la lo h1 h2 h3 h4 h5 h6 h7 h8 h9 h10 hs hla hla0 hlo hlo0
    have hfields : (dqsFields raw).count true = 10 := by
      simp [dqsFields, h1, h2, h3, h4, h5, h6, h7, h8, h9, h10]
    simp only [calculateDQS, hfields, hla, hlo]
    rw [if_pos hs, if_pos (show la ≠ 0 ∧ lo ≠ 0 from ⟨hla0, hlo0⟩),
      if_pos (show (truthyStr raw.phone || truthyStr raw.website ||
        truthyStr raw.intake1) = true by simp [h6])]
    norm_num [round2]

/-- C3 witness: the concrete fully-filled record scores exactly 1. -/
theorem calculateDQS_full_witness : calculateDQS fullRaw = 1 :=
  calculateDQS_bounds_and_full.2 fullRaw 30 (-97)
    (by decide) (by decide) (by decide) (by decide) (by decide) (by decide)
    (by decide) (by decide) (by decide) (by decide) (by decide)
    (by simp [fullRaw, parseCoord]) (by norm_num)
    (by simp [fullRaw, parseCoord]) (by norm_num)

theorem mem_insertDescBy {α : Type} (f : α → ℚ) (x : α) (l : List α) (y : α) :
    y ∈ insertDescBy f x l ↔ y = x ∨ y ∈ l := by
  induction l with
  | nil => simp [insertDescBy]
  | cons z l ih =>
    rw [insertDescBy]
    by_cases h : f x ≥ f z
    · rw [if_pos h]
      simp [List.mem_cons]
    · rw [if_neg h]
      simp only [List.mem_cons, ih]
      tauto

theorem mem_sortDescBy {α : Type} (f : α → ℚ) (l : List α) (y : α) :
    y ∈ sortDescBy f l ↔ y ∈ l := by
  induction l with
  | nil => simp [sortDescBy]
  | cons x l ih =>
    rw [sortDescBy, mem_insertDescBy]
    simp [ih]

theorem pairwise_insertDescBy {α : Type} (f : α → ℚ) (x : α) (l : List α)
    (h : l.Pairwise (fun a b => f b ≤ f a)) :
    (insertDescBy f x l).Pairwise (fun a b => f b ≤ f a) := by
  induction l with
  | nil => simp [insertDescBy]
  | cons z l ih =>
    rw [insertDescBy]
    rcases List.pairwise_cons.mp h with ⟨hz, hl⟩
    by_cases hx : f x ≥ f z
    · rw [if_pos hx]
      refine List.pairwise_cons.mpr ⟨?_, h⟩
      intro b hb
      rcases List.mem_cons.mp hb with rfl | hb
      · exact hx
      · exact le_trans (hz b hb) hx
    · rw [if_neg hx]
      refine List.pairwise_cons.mpr ⟨?_, ih hl⟩
      intro b hb
      rcases (mem_insertDescBy f x l b).mp hb with rfl | hb
      · exact le_of_not_le hx
      · exact hz b hb

theorem pairwise_sortDescBy {α : Type} (f : α → ℚ) (l : List α) :
    (sortDescBy f l).Pairwise (fun a b => f b ≤ f a) := by
  induction l with
  | nil => simp [sortDescBy]
  | cons x l ih =>
    rw [sortDescBy]
    exact pairwise_insertDescBy f x _ ih

theorem find?_insertDescBy_of_neg {α : Type} (f : α → ℚ) (p : α → Bool) (x : α)
    (l : List α) (hx : p x = false) :
    (insertDescBy f x l).find? p = l.find? p := by
  induction l with
  | nil => simp [insertDescBy, List.find?_cons, hx]
  | cons z l ih =>
    rw [insertDescBy]
    by_cases h : f x ≥ f z
    · rw [if_pos h]
      simp [List.find?_cons, hx]
    · rw [if_neg h]
      cases hz : p z with
      | true => simp [List.find?_cons, hz]
      | false => simp [List.find?_cons, hz, ih]

theorem find?_insertDescBy_of_none {α : Type} (f : α → ℚ) (p : α → Bool) (x : α)
    (l : List α) (hx : p x = true) (hl : l.find? p = none) :
    (insertDescBy f x l).find? p = some x := by
  induction l with
  | nil => simp [insertDescBy, List.find?_cons, hx]
  | cons z l ih =>
    rw [List.find?_cons] at hl
    cases hz : p z with
    | true => simp [hz] at hl
    | false =>
      rw [hz] at hl
      rw [insertDescBy]
      by_cases h : f x ≥ f z
      · rw [if_pos h]
        simp [List.find?_cons, hx]
      · rw [if_neg h]
        simp [List.find?_cons, hz, ih hl]

theorem find?_insertDescBy_of_some {α : Type} (f : α → ℚ) (p : α → Bool) (x b : α) :
    ∀ l : List α, l.Pairwise (fun a b => f b ≤ f a) → p x = true →
      l.find? p = some b →
      (insertDescBy f x l).find? p = some (if f x ≥ f b then x else b)
  | [], _, _, hfind => by simp at hfind
  | z :: l, hl, hx, hfind => by
    rcases List.pairwise_cons.mp hl with ⟨hz, hl'⟩
    rw [insertDescBy]
    by_cases h : f x ≥ f z
    · rw [if_pos h]
      have hbz : f b ≤ f z := by
        have hbmem : b ∈ z :: l := List.mem_of_find?_eq_some hfind
        rcases List.mem_cons.mp hbmem with rfl | hbmem
        · exact le_refl _
        · exact hz b hbmem
      rw [if_pos (le_trans hbz h)]
      simp [List.find?_cons, hx]
    · rw [if_neg h]
      rw [List.find?_cons] at hfind
      cases hpz : p z with
      | true =>
        rw [hpz] at hfind
        injection hfind with hb
        subst hb
        rw [if_neg h]
        simp [List.find?_cons, hpz]
      | false =>
        rw [hpz] at hfind
        simp only [List.find?_cons, hpz]
        exact find?_insertDescBy_of_some f p x b l hl' hx hfind

theorem pb1_cons {α : Type} (f : α → ℚ) (b z : α) (l : List α) :
    pb1 f b (z :: l) = pb1 f (if f z > f b then z else b) l := by
  simp [pb1]

theorem pb1_le {α : Type} (f : α → ℚ) :
    ∀ (l : List α) (b : α),
      f b ≤ f (pb1 f b l) ∧ ∀ y ∈ l, f y ≤ f (pb1 f b l) := by
  intro l
  induction l with
  | nil => intro b; exact ⟨le_refl _, by simp⟩
  | cons z l ih =>
    intro b
    rw [pb1_cons]
    have hbc : f b ≤ f (if f z > f b then z else b) := by
      split_ifs with h
      · exact le_of_lt h
      · exact le_refl _
    have hzc : f z ≤ f (if f z > f b then z else b) := by
      split_ifs with h
      · exact le_refl _
      · exact le_of_not_lt h
    obtain ⟨h1, h2⟩ := ih (if f z > f b then z else b)
    refine ⟨le_trans hbc h1, ?_⟩
    intro y hy
    rcases List.mem_cons.mp hy with rfl | hy
    · exact le_trans hzc h1
    · exact h2 y hy

theorem pb1_mem {α : Type} (f : α → ℚ) :
    ∀ (l : List α) (b : α), pb1 f b l = b ∨ pb1 f b l ∈ l := by
  intro l
  induction l with
  | nil => intro b; left; rfl
  | cons z l ih =>
    intro b
    rw [pb1_cons]
    by_cases h : f z > f b
    · rw [if_pos h]
      rcases ih z with h1 | h1
      · right; rw [h1]; exact List.mem_cons_self _ _
      · right; exact List.mem_cons_of_mem _ h1
    · rw [if_neg h]
      rcases ih b with h1 | h1
      · left; exact h1
      · right; exact List.mem_cons_of_mem _ h1

theorem pb1_of_forall {α : Type} (f : α → ℚ) :
    ∀ (l : List α) (b : α), (∀ y ∈ l, ¬ f b < f y) → pb1 f b l = b := by
  intro l
  induction l with
  | nil => intro b _; rfl
  | cons z l ih =>
    intro b hb
    rw [pb1_cons, if_neg (hb z (List.mem_cons_self _ _))]
    exact ih b fun y hy => hb y (List.mem_cons_of_mem _ hy)

theorem pb1_congr {α : Type} (f : α → ℚ) :
    ∀ (l : List α) (x y : α), (∃ z ∈ l, f x < f z ∧ f y < f z) →
      pb1 f x l = pb1 f y l := by
  intro l
  induction l with
  | nil => rintro x y ⟨z, hz, -, -⟩; simp at hz
  | cons a l ih =>
    rintro x y ⟨z, hz, hxz, hyz⟩
    rw [pb1_cons, pb1_cons]
    by_cases hax : f x < f a <;> by_cases hay : f y < f a
    · rw [if_pos hax, if_pos hay]
    · rw [if_pos hax, if_neg hay]
      have hza : z ∈ l := by
        rcases List.mem_cons.mp hz with rfl | h
        · exact absurd hyz hay
        · exact h
      exact ih a y ⟨z, hza, lt_of_le_of_lt (le_of_not_lt hay) hyz, hyz⟩
    · rw [if_neg hax, if_pos hay]
      have hza : z ∈ l := by
        rcases List.mem_cons.mp hz with rfl | h
        · exact absurd hxz hax
        · exact h
      exact ih x a ⟨z, hza, hxz, lt_of_le_of_lt (le_of_not_lt hax) hxz⟩
    · rw [if_neg hax, if_neg hay]
      have hza : z ∈ l := by
        rcases List.mem_cons.mp hz with rfl | h
        · exact absurd hxz hax
        · exact h
      exact ih x y ⟨z, hza, hxz, hyz⟩

theorem pickBestBy_eq_none {α : Type} (f : α → ℚ) (l : List α) :
    pickBestBy f l = none ↔ l = [] := by
  cases l <;> simp [pickBestBy]

theorem pickBestBy_max {α : Type} (f : α → ℚ) (l : List α) (b : α)
    (h : pickBestBy f l = some b) : ∀ y ∈ l, f y ≤ f b := by
  cases l with
  | nil => simp [pickBestBy] at h
  | cons a l =>
    rw [pickBestBy] at h
    injection h with hb
    subst hb
    intro y hy
    obtain ⟨h1, h2⟩ := pb1_le f l a
    rcases List.mem_cons.mp hy with rfl | hy
    · exact h1
    · exact h2 y hy

theorem pb1_with_best {α : Type} (f : α → ℚ) (m : List α) (b x : α)
    (hbest : pickBestBy f m = some b) (hx : f x < f b) : pb1 f x m = b := by
  cases m with
  | nil => simp [pickBestBy] at hbest
  | cons a m =>
    rw [pickBestBy] at hbest
    injection hbest with hb
    rw [pb1_cons]
    by_cases h : f a > f x
    · rw [if_pos h]
      exact hb
    · rw [if_neg h]
      have hbm : b ∈ m := by
        rcases pb1_mem f m a with h1 | h1
        · rw [hb] at h1
          subst h1
          exact absurd (lt_of_le_of_lt (le_of_not_lt h) hx) (lt_irrefl _)
        · rw [← hb]; exact h1
      exact (pb1_congr f m x a
        ⟨b, hbm, hx, lt_of_le_of_lt (le_of_not_lt h) hx⟩).trans hb

theorem find?_dedupFirst {α : Type} (key : α → String) (k : String) :
    ∀ (s : List α) (seen : List String),
      (dedupFirst key s seen).find? (fun x => key x = k) =
        if k ∈ seen then none else s.find? (fun x => key x = k) := by
  intro s
  induction s with
  | nil => intro seen; by_cases hk : k ∈ seen <;> simp [dedupFirst, hk]
  | cons x s ih =>
    intro seen
    rw [dedupFirst]
    by_cases hx : key x ∈ seen
    · rw [if_pos hx, ih]
      by_cases hk : k ∈ seen
      · simp [hk]
      · have hxk : (key x = k) = False := by
          simp only [eq_iff_iff, iff_false]
          exact fun h => hk (h ▸ hx)
        simp [hk, List.find?_cons, hxk]
    · rw [if_neg hx]
      by_cases hxk : key x = k
      · subst hxk
        rw [if_neg (by exact hx)]
        simp [List.find?_cons]
      · have hxk' : (key x = k) = False := by
          simp only [eq_iff_iff, iff_false]
          exact hxk
        rw [List.find?_cons_of_neg _ (by simp [hxk']), ih]
        by_cases hk : k ∈ seen
        · rw [if_pos (by simp [hk] : k ∈ key x :: seen), if_pos hk]
        · rw [if_neg (show ¬ k ∈ key x :: seen by
              simp only [List.mem_cons, not_or]
              exact ⟨fun h => hxk h.symm, hk⟩),
            if_neg hk, List.find?_cons_of_neg _ (by simp [hxk'])]

theorem find?_sortDescBy {α : Type} (f : α → ℚ) (p : α → Bool) :
    ∀ l : List α, (sortDescBy f l).find? p = pickBestBy f (l.filter p) := by
  intro l
  induction l with
  | nil => simp [sortDescBy, pickBestBy]
  | cons x l ih =>
    rw [sortDescBy]
    by_cases hp : p x = true
    · rw [List.filter_cons_of_pos hp]
      cases hfind : (sortDescBy f l).find? p with
      | none =>
        rw [find?_insertDescBy_of_none f p x _ hp hfind]
        have hempty : l.filter p = [] := by
          rw [← pickBestBy_eq_none f]
          rw [← ih]
          exact hfind
        rw [hempty, pickBestBy, pb1]
        rfl
      | some b =>
        rw [find?_insertDescBy_of_some f p x b _ (pairwise_sortDescBy f l) hp hfind]
        have hbest : pickBestBy f (l.filter p) = some b := by rw [← ih]; exact hfind
        rw [pickBestBy]
        by_cases hxb : f x < f b
        · rw [pb1_with_best f _ b x hbest hxb, if_neg (not_le.mpr hxb)]
        · have hall : ∀ y ∈ l.filter p, ¬ f x < f y := by
            intro y hy hlt
            exact hxb (lt_of_lt_of_le hlt (pickBestBy_max f _ b hbest y hy))
          rw [pb1_of_forall f _ x hall, if_pos (le_of_not_lt hxb)]
    · have hp' : p x = false := by simp [hp]
      rw [List.filter_cons_of_neg (by simp [hp']),
        find?_insertDescBy_of_neg f p x _ hp', ih]

/-- C5: the in-batch deduplication keeps, for each natural key, the
earliest record of maximal quality score: the survivor found for key `k`
equals the earliest maximal-score element among the input records with
key `k` (so the highest score wins for any input order, and ties go to
the first-seen record).  The concrete pairs instantiate the 0.9-vs-0.6
scenario in both input orders and the tie-breaking scenario. -/
theorem dedupeStep_keeps_best :
    (∀ (l : List FacilityRecord) (k : String),
        (dedupeStep l).find? (fun x => facKey x = k) =
          pickBestBy FacilityRecord.dqs (l.filter (fun x => facKey x = k))) ∧
    dedupeStep [dupRecHigh, dupRecLow] = [dupRecHigh] ∧
    dedupeStep [dupRecLow, dupRecHigh] = [dupRecHigh] ∧
    dedupeStep [dupRecHigh, dupRecTie] = [dupRecHigh] := by
  refine ⟨?_, ?_, ?_, ?_⟩
  · intro l k
    rw [dedupeStep, find?_dedupFirst, if_neg (List.not_mem_nil k), find?_sortDescBy]
  · norm_num [dedupeStep, sortDescBy, insertDescBy, dedupFirst, facKey,
      dupRecHigh, dupRecLow, mkSample]
  · norm_num [dedupeStep, sortDescBy, insertDescBy, dedupFirst, facKey,
      dupRecHigh, dupRecLow, mkSample]
  · norm_num [dedupeStep, sortDescBy, insertDescBy, dedupFirst, facKey,
      dupRecHigh, dupRecTie, mkSample]

theorem dedupFirst_sublist {α : Type} (key : α → String) :
    ∀ (s : List α) (seen : List String), (dedupFirst key s seen).Sublist s := by
  intro s
  induction s with
  | nil => intro seen; simp [dedupFirst]
  | cons x s ih =>
    intro seen
    rw [dedupFirst]
    by_cases hx : key x ∈ seen
    · rw [if_pos hx]
      exact (ih seen).cons x
    · rw [if_neg hx]
      exact (ih (key x :: seen)).cons₂ x

/-- C9: the deduplication step emits its survivors ordered by quality
score, non-increasing — the batch is sorted by DQS descending before
keying, and keeping first occurrences preserves that order. -/
theorem dedupeStep_sorted :
    ∀ l : List FacilityRecord,
      (dedupeStep l).Pairwise (fun a b => b.dqs ≤ a.dqs) := by
  intro l
  exact (pairwise_sortDescBy FacilityRecord.dqs l).sublist
    (dedupFirst_sublist facKey _ [])

theorem addToGroup_mem {α : Type} (key : String) (x : α) :
    ∀ (gs : List (String × List α)) (p : String × List α),
      p ∈ addToGroup key x gs → ∀ y ∈ p.2, y = x ∨ ∃ q ∈ gs, y ∈ q.2 := by
  intro gs
  induction gs with
  | nil =>
    intro p hp y hy
    simp only [addToGroup, List.mem_singleton] at hp
    subst hp
    simp only [List.mem_singleton] at hy
    exact Or.inl hy
  | cons g rest ih =>
    intro p hp y hy
    obtain ⟨k, grp⟩ := g
    rw [addToGroup] at hp
    by_cases hk : k = key
    · rw [if_pos hk] at hp
      rcases List.mem_cons.mp hp with rfl | hp
      · simp only [List.mem_append, List.mem_singleton] at hy
        rcases hy with hy | hy
        · exact Or.inr ⟨(k, grp), List.mem_cons_self _ _, hy⟩
        · exact Or.inl hy
      · exact Or.inr ⟨p, List.mem_cons_of_mem _ hp, hy⟩
    · rw [if_neg hk] at hp
      rcases List.mem_cons.mp hp with rfl | hp
      · exact Or.inr ⟨(k, grp), List.mem_cons_self _ _, hy⟩
      · rcases ih p hp y hy with h | ⟨q, hq, hyq⟩
        · exact Or.inl h
        · exact Or.inr ⟨q, List.mem_cons_of_mem _ hq, hyq⟩

theorem foldl_addToGroup_mem {α : Type} (key : α → String) :
    ∀ (l : List α) (gs : List (String × List α)) (p : String × List α),
      p ∈ l.foldl (fun gs x => addToGroup (key x) x gs) gs →
      ∀ y ∈ p.2, (∃ q ∈ gs, y ∈ q.2) ∨ y ∈ l := by
  intro l
  induction l with
  | nil =>
    intro gs p hp y hy
    exact Or.inl ⟨p, hp, hy⟩
  | cons x l ih =>
    intro gs p hp y hy
    rw [List.foldl_cons] at hp
    rcases ih (addToGroup (key x) x gs) p hp y hy with h | h
    · obtain ⟨q, hq, hyq⟩ := h
      rcases addToGroup_mem (key x) x gs q hq y hyq with rfl | ⟨r, hr, hyr⟩
      · exact Or.inr (List.mem_cons_self _ _)
      · exact Or.inl ⟨r, hr, hyr⟩
    · exact Or.inr (List.mem_cons_of_mem _ h)

theorem groupByKey_mem {α : Type} (key : α → String) (l : List α)
    (p : String × List α) (hp : p ∈ groupByKey key l) :
    ∀ y ∈ p.2, y ∈ l := by
  intro y hy
  rcases foldl_addToGroup_mem key l [] p hp y hy with ⟨q, hq, -⟩ | h
  · simp at hq
  · exact h

theorem dedupeDeletions_indexable (store : List StoredFacility) (i : ℕ)
    (hi : i ∈ dedupeDeletions store) :
    ∃ g ∈ store, g.is_indexable = true ∧ g.id = i := by
  rw [dedupeDeletions] at hi
  simp only [List.mem_flatten, List.mem_map] at hi
  obtain ⟨ids, ⟨grp, hgrp, rfl⟩, hid⟩ := hi
  simp only [List.mem_map] at hid
  obtain ⟨y, hy, rfl⟩ := hid
  have hy2 : y ∈ grp.2 := List.mem_of_mem_drop hy
  have hyfetch : y ∈ fetchIndexable store := groupByKey_mem _ _ grp hgrp y hy2
  rw [fetchIndexable, mem_sortDescBy] at hyfetch
  rw [List.mem_filter] at hyfetch
  exact ⟨y, hyfetch.1, by simpa using hyfetch.2, rfl⟩

/-- C10: the standalone maintenance deduplication pass reads only
indexable rows, so (as long as row ids are unique, which the primary key
guarantees) every non-indexable row survives the pass — in particular
both members of any non-indexable duplicate pair remain stored. -/
theorem dedupeFacilities_preserves_nonindexable :
    ∀ (store : List StoredFacility), (store.map (fun f => f.id)).Nodup →
      ∀ f ∈ store, f.is_indexable = false →
        f ∈ dedupeFacilitiesRemaining store := by
  intro store hnd f hf hni
  rw [dedupeFacilitiesRemaining, List.mem_filter]
  refine ⟨hf, ?_⟩
  simp only [decide_eq_true_eq]
  intro hdel
  obtain ⟨g, hg, hgi, hgid⟩ := dedupeDeletions_indexable store f.id hdel
  have : g = f := List.inj_on_of_nodup_map hnd hg hf hgid
  rw [this, hni] at hgi
  exact Bool.false_ne_true hgi

/-- C10 witness: a concrete store holding two non-indexable rows that
share a natural key keeps both rows. -/
theorem dedupeFacilities_preserves_nonindexable_witness :
    storedDupA ∈ dedupeFacilitiesRemaining [storedDupA, storedDupB] ∧
      storedDupB ∈ dedupeFacilitiesRemaining [storedDupA, storedDupB] := by
  constructor
  · exact dedupeFacilities_preserves_nonindexable [storedDupA, storedDupB]
      (by decide) storedDupA (List.mem_cons_self _ _) rfl
  · exact dedupeFacilities_preserves_nonindexable [storedDupA, storedDupB]
      (by decide) storedDupB (List.mem_cons_of_mem _ (List.mem_cons_self _ _)) rfl
